import Mathlib

/-!
Verification of the band-stack assembler of the `senio` repository
(`senio/utils.py` and `senio/processors.py`).

The embedding is shallow: numpy arrays become nested lists of natural
numbers (`uint16` casts are taken modulo 2^16, the `uint8` scratch array
of `stack_sort` stores its entries modulo 2^8), Python exceptions become
`Option`/`Except` failures, and the filesystem facts a guard consults
(existence of the input path, the granule directory listing) become
explicit parameters.
-/

namespace Senio

/-- A single band sample: a 2-D grid of pixel values (`numpy` 2-D array). -/
abbrev Band := List (List Nat)

/-- A stack: a 3-D array, i.e. a list of band samples (`numpy` 3-D array). -/
abbrev Stack := List Band

/-- Casting a band into a `uint16` destination array: every pixel is reduced
modulo 2^16, as numpy does when assigning into a `dtype=uint16` array. -/
def cast_u16 (b : Band) : Band := b.map (fun r => r.map (fun v => v % 65536))

/-- A 2-D zero block of `row × column` pixels, one slice of `np.zeros`. -/
def zeros_band (row column : Nat) : Band :=
  List.replicate row (List.replicate column 0)

/-- `np.zeros((band, row, column), dtype=np.uint16)` from `stack_sort`. -/
def zeros3 (band row column : Nat) : Stack :=
  List.replicate band (zeros_band row column)

/-- All pixel values of a stack fit in an unsigned 16-bit integer
(the dtype every raster in this pipeline is read and written as). -/
def U16Stack (s : Stack) : Prop :=
  ∀ b ∈ s, ∀ r ∈ b, ∀ v ∈ r, v < 65536

/-- The stack is a genuine 3-D `numpy` array: every band is an `r × c`
rectangle. -/
def Rect3 (s : Stack) (r c : Nat) : Prop :=
  ∀ b ∈ s, b.length = r ∧ ∀ row ∈ b, row.length = c

/-- The matching loop of `stack_sort` (`utils.py` lines 90-99) for one target
code: `count` is reset to `0` after every hit, so each target is located by a
fresh linear scan of `code_list` from the front; running off the end of
`code_list` is an `IndexError` (`none`). -/
def scan_codes (code_list : List String) : List String → Option (List Nat)
  | [] => some []
  | t :: ts => do
      let i ← code_list.findIdx? (fun c => c == t)
      let rest ← scan_codes code_list ts
      pure ((i % 256) :: rest)

/-- The whole `while count_sort != len_list_bands` loop of `stack_sort`:
it fills `c_arr` (a `dtype=np.uint8` array, hence the `% 256`) with the scan
position of each of the first `len(code_list)` canonical codes; indexing
`sorted_list[count_sort]` past its end is an `IndexError` (`none`). -/
def build_c_arr (code_list sorted_list : List String) : Option (List Nat) :=
  if code_list.length ≤ sorted_list.length then
    scan_codes code_list (sorted_list.take code_list.length)
  else none

/-- The copy loop of `stack_sort` (`utils.py` lines 103-104): iteration
`sorted_band = j` reads band `c_arr[j]` of the input (an out-of-range read is
an `IndexError`, `none`) and assigns it into slot `j` of the accumulator,
cast to the accumulator's `uint16` dtype; writing past the accumulator's band
count is likewise an `IndexError`. -/
def fill_loop (stack_array : Stack) : Stack → Nat → List Nat → Option Stack
  | acc, _, [] => some acc
  | acc, j, i :: rest => do
      let src ← stack_array[i]?
      if j < acc.length then
        fill_loop stack_array (acc.set j (cast_u16 src)) (j + 1) rest
      else none

/-- `stack_sort` from `utils.py` lines 82-106: builds the `c_arr` positions by
repeated linear scans, then copies band `c_arr[j]` of the input into slot `j`
of a fresh `uint16` zero array of the input's shape. -/
def stack_sort (stack_array : Stack) (code_list sorted_list : List String) :
    Option Stack :=
  let band := stack_array.length
  let row := (stack_array.headD []).length
  let column := ((stack_array.headD []).headD []).length
  match build_c_arr code_list sorted_list with
  | none => none
  | some c_arr => fill_loop stack_array (zeros3 band row column) 0 c_arr

/-- A heap of numpy array objects: the address of an array is its allocation
index.  This state-passing refinement of `stack_sort` makes the mutation
behaviour of the routine explicit: `np.zeros` appends a fresh object, and the
copy loop writes only through the fresh object's address. -/
abbrev Heap := List Stack

/-- The copy loop of `stack_sort` acting on the heap: iteration `j` reads
band `c_arr[j]` of the array at `a_src` and writes slot `j` of the array at
`a_dst` (cast to its `uint16` dtype); no other address is touched. -/
def fill_loop_heap (a_src a_dst : Nat) : Heap → Nat → List Nat → Option Heap
  | h, _, [] => some h
  | h, j, i :: rest => do
      let src_arr ← h[a_src]?
      let src ← src_arr[i]?
      let dst ← h[a_dst]?
      if j < dst.length then
        fill_loop_heap a_src a_dst (h.set a_dst (dst.set j (cast_u16 src))) (j + 1) rest
      else none

/-- `stack_sort` on the heap: reads the input stack at address `a_stack`,
allocates `stack_sorted = np.zeros(stack_array.shape, dtype=np.uint16)` as a
fresh object, runs the scan and copy loops, and returns the updated heap with
the address of the new object.  The Python lists `code_list` and
`sorted_list` stay pure values: the source only reads them by index. -/
def stack_sort_heap (h : Heap) (a_stack : Nat)
    (code_list sorted_list : List String) : Option (Heap × Nat) := do
  let stack_array ← h[a_stack]?
  let band := stack_array.length
  let row := (stack_array.headD []).length
  let column := ((stack_array.headD []).headD []).length
  let a_new := h.length
  let h1 := h ++ [zeros3 band row column]
  match build_c_arr code_list sorted_list with
  | none => none
  | some c_arr => do
      let h2 ← fill_loop_heap a_stack a_new h1 0 c_arr
      pure (h2, a_new)

/-- `sorted_list_10m = ["02", "03", "04", "08"]` from `processors.py`. -/
def sorted_list_10m : List String := ["02", "03", "04", "08"]

/-- `sorted_list_20m = ["05", "06", "07", "11", "12", "8A"]` from
`processors.py`. -/
def sorted_list_20m : List String := ["05", "06", "07", "11", "12", "8A"]

/-- `sorted_list_60m = ["01", "09"]` from `processors.py`. -/
def sorted_list_60m : List String := ["01", "09"]

/-- The 10m sorting step of `processor_all` (`processors.py` line 127). -/
def processor_all_sort_10m (stack : Stack) (codes : List String) : Option Stack :=
  stack_sort stack codes sorted_list_10m

/-- The 20m sorting step of `processor_all` (`processors.py` line 134). -/
def processor_all_sort_20m (stack : Stack) (codes : List String) : Option Stack :=
  stack_sort stack codes sorted_list_20m

/-- The 60m sorting step of `processor_all` (`processors.py` line 141). -/
def processor_all_sort_60m (stack : Stack) (codes : List String) : Option Stack :=
  stack_sort stack codes sorted_list_60m

/-- The 10m sorting step of `processor_rgbn` (`processors.py` line 372). -/
def processor_rgbn_sort_10m (stack : Stack) (codes : List String) : Option Stack :=
  stack_sort stack codes sorted_list_10m

/-- A numpy basic slice `a[i:j]` along axis 0: elements `i, …, j-1`, clipped
to the array, never an error. -/
def npslice (a : Stack) (i j : Nat) : Stack := (a.drop i).take (j - i)

/-- The `np.concatenate` merge expression of `processor_all`
(`processors.py` lines 242-258), slice by slice in the source's order. -/
def processor_all_merge (stack_10m_sorted data_20m data_60m : Stack) : Stack :=
  npslice data_60m 0 1 ++
  npslice stack_10m_sorted 0 1 ++
  npslice stack_10m_sorted 1 2 ++
  npslice stack_10m_sorted 2 3 ++
  npslice data_20m 0 1 ++
  npslice data_20m 1 2 ++
  npslice data_20m 2 3 ++
  npslice stack_10m_sorted 3 4 ++
  npslice data_20m 5 6 ++
  npslice data_60m 1 2 ++
  npslice data_20m 3 4 ++
  npslice data_20m 4 5

/-- The Python exceptions the processors can raise at their guard points. -/
inductive PyErr where
  | systemExit (msg : String)
  | indexError
  | nameError
deriving DecidableEq, Repr

/-- A `pathlib.Path` reduced to what the guards inspect: its stem and its
final suffix. -/
structure PyPath where
  stem : String
  suffix : String
deriving DecidableEq, Repr

/-- `check_path_validity` from `utils.py` lines 46-64.  The filesystem fact
`product_path.exists()` is the explicit parameter `ex`.  A `.zip` input is
extracted (delegated to `zipfile`, out of scope) and the returned path gets
suffix `.SAFE`; a `.SAFE` input is returned unchanged. -/
def check_path_validity (ex : Bool) (product_path : PyPath) : Except PyErr PyPath :=
  if ex = false then
    .error (.systemExit ("File does not exist: " ++ product_path.stem))
  else if ¬(product_path.suffix = ".zip" ∨ product_path.suffix = ".SAFE") then
    .error (.systemExit "File does not have the correct suffix")
  else if product_path.suffix = ".zip" then
    .ok { product_path with suffix := ".SAFE" }
  else
    .ok product_path

/-- Python's substring test `sub in s`. -/
def py_in (sub s : String) : Bool := decide (sub.data <:+: s.data)

/-- `granule.rglob("*L2A*")` from `processors.py` line 54 (and line 341):
of the names below the granule folder, those whose final component matches
the glob pattern `*L2A*`, i.e. contains `"L2A"` (POSIX case-sensitive
matching). -/
def rglob_L2A (names : List String) : List String :=
  names.filter (fun n => py_in "L2A" n)

/-- The `if "L2A" in granule.name` guard of `processors.py` lines 56-65
(and 343-347): its `else` branch raises `SystemExit("L2A product not
found")`. -/
def granule_branch (name : String) : Except PyErr Unit :=
  if py_in "L2A" name then .ok () else .error (.systemExit "L2A product not found")

/-- The `rasterio.enums.Resampling` members `processor_all` can select. -/
inductive Resampling where
  | nearest
  | bilinear
  | cubic
deriving DecidableEq, Repr

/-- The resampling dispatch of `processor_all` (`processors.py` lines
200-207): anything other than `"nearest"`, `"bilinear"` or `"cubic"` raises
`SystemExit`. -/
def select_resampling (resample : String) : Except PyErr Resampling :=
  if resample = "nearest" then .ok .nearest
  else if resample = "bilinear" then .ok .bilinear
  else if resample = "cubic" then .ok .cubic
  else .error (.systemExit (resample ++ " not a valid option"))

/-- The abort points of a `processor_all` run, in source order: the path
check, the granule lookup `list(granule.rglob("*L2A*"))[0]` (an empty match
list is an `IndexError`), the `"L2A" in granule.name` guard, and the
resampling dispatch.  The steps between them (band reading, sorting, temp
writes) delegate to raster I/O and raise no `SystemExit`. -/
def processor_all_guards (ex : Bool) (product_path : PyPath)
    (granule_names : List String) (resample : String) : Except PyErr Resampling := do
  let _ ← check_path_validity ex product_path
  match (rglob_L2A granule_names)[0]? with
  | none => .error .indexError
  | some g => do
      let _ ← granule_branch g
      select_resampling resample

/-- The guarded stacking step of `processor_all` (`processors.py` lines
239-258): the merged `stack` variable is assigned only when the affine
transforms of the resampled 20m and 60m stacks compare equal; otherwise it
stays unbound (`none`).  The transform type is abstract: only its equality
test matters to the guard. -/
def merge_guard {T : Type} [DecidableEq T] (transform_20m transform_60m : T)
    (stack_10m_sorted data_20m data_60m : Stack) : Option Stack :=
  if transform_20m = transform_60m then
    some (processor_all_merge stack_10m_sorted data_20m data_60m)
  else none

/-- The export step of `processor_all` (`processors.py` lines 275-291):
`create_pam_xml(stack, …)` and `dst.write(stack)` read the `stack` variable;
if it was never assigned, Python raises `NameError` instead of writing. -/
def export_merged (stack : Option Stack) : Except PyErr Stack :=
  match stack with
  | some s => .ok s
  | none => .error .nameError

end Senio

namespace Senio

/-! ### Helper lemmas -/

theorem take_one_drop (a : Stack) (i : Nat) (h : i < a.length) :
    (a.drop i).take 1 = [a.get ⟨i, h⟩] := by
  rw [List.drop_eq_getElem_cons h]
  rfl

theorem npslice_one (a : Stack) (i j : Nat) (hj : j = i + 1) (h : i < a.length) :
    npslice a i j = [a.get ⟨i, h⟩] := by
  subst hj
  unfold npslice
  rw [Nat.add_sub_cancel_left]
  exact take_one_drop a i h

theorem eq_cons_of_length {α : Type} {l : List α} {n : Nat} (h : l.length = n + 1) :
    ∃ a t, l = a :: t ∧ t.length = n := by
  cases l with
  | nil => simp at h
  | cons a t => exact ⟨a, t, rfl, by simpa using h⟩

theorem granule_branch_of_mem {names : List String} {g : String}
    (h : g ∈ rglob_L2A names) : granule_branch g = .ok () := by
  have hp : py_in "L2A" g = true := (List.mem_filter.mp h).2
  simp [granule_branch, hp]

/-! ### Claims about the merge step of `processor_all` -/

/-- C3: in `processor_all`'s merge, output band 1 is always `data_60m[0:1]`,
the first slice of the 60m stack, whatever pixel values any input holds: the
merged array's first band equals the 60m stack's first band for every choice
of stack contents. -/
theorem C3_merge_band1_from_60m (s10 d20 d60 : Stack) (h : 0 < d60.length) :
    (processor_all_merge s10 d20 d60)[0]? = d60[0]? := by
  unfold processor_all_merge
  rw [npslice_one d60 0 1 rfl h]
  simp [List.getElem?_eq_getElem h]

/-- Witness for C3 at a concrete input. -/
theorem C3_merge_band1_from_60m_witness :
    0 < ([[[11]], [[12]]] : Stack).length ∧
      (processor_all_merge [[[1]], [[2]], [[3]], [[4]]]
        [[[5]], [[6]], [[7]], [[8]], [[9]], [[10]]] [[[11]], [[12]]])[0]? =
        ([[[11]], [[12]]] : Stack)[0]? :=
  ⟨by decide,
    C3_merge_band1_from_60m [[[1]], [[2]], [[3]], [[4]]]
      [[[5]], [[6]], [[7]], [[8]], [[9]], [[10]]] [[[11]], [[12]]] (by decide)⟩

/-- C2 counterexample: the claim puts "the remaining 60m band last", but on a
concrete 4/6/2-band input with pairwise distinct bands the last band of the
merged array is `data_20m[4]` (code "12"), not the remaining 60m band
`data_60m[1]` (code "09"): slot 9 holds the 60m band and slots 10 and 11 hold
`data_20m[3]` and `data_20m[4]`. -/
theorem C2_counterexample_60m_not_last :
    (processor_all_merge [[[1]], [[2]], [[3]], [[4]]]
        [[[5]], [[6]], [[7]], [[8]], [[9]], [[10]]] [[[11]], [[12]]]).getLast? ≠
      ([[[11]], [[12]]] : Stack)[1]? ∧
    (processor_all_merge [[[1]], [[2]], [[3]], [[4]]]
        [[[5]], [[6]], [[7]], [[8]], [[9]], [[10]]] [[[11]], [[12]]])[11]? =
      ([[[5]], [[6]], [[7]], [[8]], [[9]], [[10]]] : Stack)[4]? := by
  constructor
  · decide
  · decide

/-- C2 (amended): for stacks of the expected 4/6/2 band counts, the merged
12-band array is assembled as: the 60m stack's band 1 first, then three 10m
bands, then three 20m bands, then the remaining 10m band, then the sixth 20m
band (code "8A"), then the remaining 60m band, and the fourth and fifth 20m
bands (codes "11" and "12") last. -/
theorem C2_merge_sequence (s10 d20 d60 : Stack)
    (h10 : s10.length = 4) (h20 : d20.length = 6) (h60 : d60.length = 2) :
    processor_all_merge s10 d20 d60 =
      [d60[0], s10[0], s10[1], s10[2], d20[0], d20[1], d20[2], s10[3],
        d20[5], d60[1], d20[3], d20[4]] := by
  obtain ⟨a0, t1, rfl, ht1⟩ := eq_cons_of_length h10
  obtain ⟨a1, t2, rfl, ht2⟩ := eq_cons_of_length ht1
  obtain ⟨a2, t3, rfl, ht3⟩ := eq_cons_of_length ht2
  obtain ⟨a3, t4, rfl, ht4⟩ := eq_cons_of_length ht3
  obtain rfl := List.eq_nil_of_length_eq_zero ht4
  obtain ⟨b0, u1, rfl, hu1⟩ := eq_cons_of_length h20
  obtain ⟨b1, u2, rfl, hu2⟩ := eq_cons_of_length hu1
  obtain ⟨b2, u3, rfl, hu3⟩ := eq_cons_of_length hu2
  obtain ⟨b3, u4, rfl, hu4⟩ := eq_cons_of_length hu3
  obtain ⟨b4, u5, rfl, hu5⟩ := eq_cons_of_length hu4
  obtain ⟨b5, u6, rfl, hu6⟩ := eq_cons_of_length hu5
  obtain rfl := List.eq_nil_of_length_eq_zero hu6
  obtain ⟨c0, v1, rfl, hv1⟩ := eq_cons_of_length h60
  obtain ⟨c1, v2, rfl, hv2⟩ := eq_cons_of_length hv1
  obtain rfl := List.eq_nil_of_length_eq_zero hv2
  rfl

/-- Witness for the amended C2 at a concrete input. -/
theorem C2_merge_sequence_witness :
    processor_all_merge [[[1]], [[2]], [[3]], [[4]]]
        [[[5]], [[6]], [[7]], [[8]], [[9]], [[10]]] [[[11]], [[12]]] =
      [[[11]], [[1]], [[2]], [[3]], [[5]], [[6]], [[7]], [[4]], [[10]], [[12]],
        [[8]], [[9]]] :=
  C2_merge_sequence [[[1]], [[2]], [[3]], [[4]]]
    [[[5]], [[6]], [[7]], [[8]], [[9]], [[10]]] [[[11]], [[12]]]
    (by decide) (by decide) (by decide)

/-- C6: when the sorted 10m, upsampled-20m, and upsampled-60m stacks hold
exactly 4, 6, and 2 bands, the merged product of `processor_all` has exactly
12 bands. -/
theorem C6_merged_has_12_bands (s10 d20 d60 : Stack)
    (h10 : s10.length = 4) (h20 : d20.length = 6) (h60 : d60.length = 2) :
    (processor_all_merge s10 d20 d60).length = 12 := by
  simp only [processor_all_merge, npslice, List.length_append, List.length_take,
    List.length_drop]
  omega

/-- Witness for C6 at a concrete input. -/
theorem C6_merged_has_12_bands_witness :
    (processor_all_merge [[[1]], [[2]], [[3]], [[4]]]
      [[[5]], [[6]], [[7]], [[8]], [[9]], [[10]]] [[[11]], [[12]]]).length = 12 :=
  C6_merged_has_12_bands [[[1]], [[2]], [[3]], [[4]]]
    [[[5]], [[6]], [[7]], [[8]], [[9]], [[10]]] [[[11]], [[12]]]
    (by decide) (by decide) (by decide)

/-! ### Claims about the canonical lists and the guards -/

/-- C5: both processors sort each tier against the fixed canonical band-code
lists: the 10m stacks (in `processor_all` and in `processor_rgbn`) against
`["02", "03", "04", "08"]`, the 20m stack against
`["05", "06", "07", "11", "12", "8A"]`, and the 60m stack against
`["01", "09"]`. -/
theorem C5_canonical_code_lists :
    sorted_list_10m = ["02", "03", "04", "08"] ∧
    sorted_list_20m = ["05", "06", "07", "11", "12", "8A"] ∧
    sorted_list_60m = ["01", "09"] ∧
    (∀ s c, processor_all_sort_10m s c = stack_sort s c ["02", "03", "04", "08"]) ∧
    (∀ s c, processor_all_sort_20m s c =
      stack_sort s c ["05", "06", "07", "11", "12", "8A"]) ∧
    (∀ s c, processor_all_sort_60m s c = stack_sort s c ["01", "09"]) ∧
    (∀ s c, processor_rgbn_sort_10m s c = stack_sort s c ["02", "03", "04", "08"]) :=
  ⟨rfl, rfl, rfl, fun _ _ => rfl, fun _ _ => rfl, fun _ _ => rfl, fun _ _ => rfl⟩

/-- C8: the `SystemExit("L2A product not found")` branch is unreachable for
any granule selected from the `rglob("*L2A*")` matches: every match's name
contains `"L2A"`, so the guard takes its success branch. -/
theorem C8_l2a_branch_unreachable (names : List String) (g : String)
    (h : g ∈ rglob_L2A names) : granule_branch g = .ok () :=
  granule_branch_of_mem h

/-- Witness for C8 at a concrete granule listing. -/
theorem C8_l2a_branch_unreachable_witness :
    "T32ABC_L2A_GRANULE" ∈ rglob_L2A ["T32ABC_L2A_GRANULE"] ∧
      granule_branch "T32ABC_L2A_GRANULE" = .ok () :=
  ⟨by decide, C8_l2a_branch_unreachable ["T32ABC_L2A_GRANULE"]
    "T32ABC_L2A_GRANULE" (by decide)⟩

/-- C9: if the 20m and 60m affine transforms differ, the merged `stack` is
never assigned, and the export step fails with a `NameError` instead of ever
returning a merged product. -/
theorem C9_no_export_on_transform_mismatch {T : Type} [DecidableEq T]
    (transform_20m transform_60m : T) (s10 d20 d60 : Stack)
    (h : transform_20m ≠ transform_60m) :
    merge_guard transform_20m transform_60m s10 d20 d60 = none ∧
      export_merged (merge_guard transform_20m transform_60m s10 d20 d60) =
        .error .nameError := by
  have hnone : merge_guard transform_20m transform_60m s10 d20 d60 = none := by
    simp [merge_guard, h]
  exact ⟨hnone, by rw [hnone]; rfl⟩

/-- Witness for C9 with concrete unequal transforms. -/
theorem C9_no_export_on_transform_mismatch_witness :
    (0 : Nat) ≠ 1 ∧
      (merge_guard (0 : Nat) 1 [] [] [] = none ∧
        export_merged (merge_guard (0 : Nat) 1 [] [] []) = .error .nameError) :=
  ⟨by decide, C9_no_export_on_transform_mismatch 0 1 [] [] [] (by decide)⟩

/-- C7: for a run that reaches the resample dispatch (the granule listing has
an `L2A` match), `processor_all` aborts with a `SystemExit` exactly when the
input path is invalid (missing, or suffix neither `.zip` nor `.SAFE`, as
checked by `check_path_validity`) or the `resample` argument is none of
`"nearest"`, `"bilinear"`, `"cubic"`; in those cases the run stops with an
error and yields no result. -/
theorem C7_systemexit_conditions (ex : Bool) (p : PyPath) (names : List String)
    (resample : String) (hne : rglob_L2A names ≠ []) :
    (∃ m, processor_all_guards ex p names resample = .error (.systemExit m)) ↔
      (ex = false ∨ (p.suffix ≠ ".zip" ∧ p.suffix ≠ ".SAFE") ∨
        (resample ≠ "nearest" ∧ resample ≠ "bilinear" ∧ resample ≠ "cubic")) := by
  rcases hg : (rglob_L2A names)[0]? with _ | g
  · rw [List.getElem?_eq_none_iff] at hg
    exact absurd (List.eq_nil_of_length_eq_zero (Nat.le_zero.mp hg)) hne
  · have hok : granule_branch g = .ok () :=
      granule_branch_of_mem (List.getElem?_mem hg)
    unfold processor_all_guards
    rw [hg]
    simp only [check_path_validity, select_resampling, hok]
    split_ifs <;> simp_all [Except.bind] <;> tauto

/-- Witness for C7: valid path, granule found, invalid resample option. -/
theorem C7_systemexit_conditions_witness :
    rglob_L2A ["T32_L2A_X"] ≠ [] ∧
      ((∃ m, processor_all_guards true ⟨"p", ".SAFE"⟩ ["T32_L2A_X"] "foo" =
          .error (.systemExit m)) ↔
        (true = false ∨ ((".SAFE" : String) ≠ ".zip" ∧ (".SAFE" : String) ≠ ".SAFE") ∨
          (("foo" : String) ≠ "nearest" ∧ ("foo" : String) ≠ "bilinear" ∧
            ("foo" : String) ≠ "cubic"))) :=
  ⟨by decide, C7_systemexit_conditions true ⟨"p", ".SAFE"⟩ ["T32_L2A_X"] "foo"
    (by decide)⟩

/-! ### Lemmas for `stack_sort` -/

theorem list_map_id_of {α : Type} {f : α → α} :
    ∀ {l : List α}, (∀ x ∈ l, f x = x) → l.map f = l := by
  intro l
  induction l with
  | nil => intro _; rfl
  | cons a t ih =>
      intro h
      simp only [List.map_cons, List.cons.injEq]
      exact ⟨h a (by simp), ih (fun x hx => h x (by simp [hx]))⟩

theorem cast_u16_eq_self {b : Band} (h : ∀ r ∈ b, ∀ v ∈ r, v < 65536) :
    cast_u16 b = b :=
  list_map_id_of (fun r hr =>
    list_map_id_of (fun v hv => Nat.mod_eq_of_lt (h r hr v hv)))

theorem scan_codes_length (cl : List String) :
    ∀ {ts : List String} {cs : List Nat}, scan_codes cl ts = some cs → cs.length = ts.length := by
  intro ts
  induction ts with
  | nil =>
      intro cs h
      simp only [scan_codes, Option.some.injEq] at h
      simp [← h]
  | cons t ts ih =>
      intro cs h
      simp only [scan_codes, Option.bind_eq_bind] at h
      rw [Option.bind_eq_some] at h
      obtain ⟨i, hf, h⟩ := h
      rw [Option.bind_eq_some] at h
      obtain ⟨rest, hs, h⟩ := h
      injection h with h
      subst h
      simp [ih hs]

theorem scan_codes_get (cl : List String) :
    ∀ {ts : List String} {cs : List Nat}, scan_codes cl ts = some cs →
      ∀ (k : Nat) (t : String), ts[k]? = some t →
        ∃ i, cl.findIdx? (fun x => x == t) = some i ∧ cs[k]? = some (i % 256) := by
  intro ts
  induction ts with
  | nil => intro cs _ k t hk; simp at hk
  | cons t0 ts ih =>
      intro cs h k t hk
      simp only [scan_codes, Option.bind_eq_bind] at h
      rw [Option.bind_eq_some] at h
      obtain ⟨i, hf, h⟩ := h
      rw [Option.bind_eq_some] at h
      obtain ⟨rest, hs, h⟩ := h
      injection h with h
      subst h
      cases k with
      | zero =>
          simp only [List.getElem?_cons_zero, Option.some.injEq] at hk
          subst hk
          exact ⟨i, hf, by simp⟩
      | succ k =>
          simp only [List.getElem?_cons_succ] at hk ⊢
          exact ih hs k t hk

theorem scan_codes_lt (cl : List String) :
    ∀ {ts : List String} {cs : List Nat}, scan_codes cl ts = some cs → ∀ x ∈ cs, x < cl.length := by
  intro ts
  induction ts with
  | nil =>
      intro cs h x hx
      simp only [scan_codes, Option.some.injEq] at h
      subst h
      simp at hx
  | cons t0 ts ih =>
      intro cs h x hx
      simp only [scan_codes, Option.bind_eq_bind] at h
      rw [Option.bind_eq_some] at h
      obtain ⟨i, hf, h⟩ := h
      rw [Option.bind_eq_some] at h
      obtain ⟨rest, hs, h⟩ := h
      injection h with h
      subst h
      rcases List.mem_cons.mp hx with rfl | hx
      · obtain ⟨hi, -, -⟩ := List.findIdx?_eq_some_iff_getElem.mp hf
        exact lt_of_le_of_lt (Nat.mod_le i 256) hi
      · exact ih hs x hx

theorem scan_codes_isSome (cl : List String) :
    ∀ (ts : List String), (∀ t ∈ ts, t ∈ cl) →
      ∃ cs, scan_codes cl ts = some cs := by
  intro ts
  induction ts with
  | nil => exact fun _ => ⟨[], rfl⟩
  | cons t ts ih =>
      intro h
      have ht : t ∈ cl := h t (by simp)
      have hf := @List.findIdx?_eq_some_of_exists _ cl (fun x => x == t)
        ⟨t, ht, by simp⟩
      obtain ⟨cs, hcs⟩ := ih (fun x hx => h x (by simp [hx]))
      exact ⟨(cl.findIdx (fun x => x == t)) % 256 :: cs, by
        simp [scan_codes, hf, hcs]⟩

theorem fill_loop_length (st : Stack) :
    ∀ {is : List Nat} {acc : Stack} {j : Nat} {out : Stack}, fill_loop st acc j is = some out → out.length = acc.length := by
  intro is
  induction is with
  | nil =>
      intro acc j out h
      simp only [fill_loop, Option.some.injEq] at h
      simp [← h]
  | cons i rest ih =>
      intro acc j out h
      simp only [fill_loop, Option.bind_eq_bind] at h
      rw [Option.bind_eq_some] at h
      obtain ⟨src, hsrc, h⟩ := h
      split at h
      · have := ih h
        simpa using this
      · simp at h

theorem fill_loop_lower (st : Stack) :
    ∀ {is : List Nat} {acc : Stack} {j : Nat} {out : Stack}, fill_loop st acc j is = some out →
      ∀ k < j, out[k]? = acc[k]? := by
  intro is
  induction is with
  | nil =>
      intro acc j out h k _
      simp only [fill_loop, Option.some.injEq] at h
      simp [← h]
  | cons i rest ih =>
      intro acc j out h k hk
      simp only [fill_loop, Option.bind_eq_bind] at h
      rw [Option.bind_eq_some] at h
      obtain ⟨src, hsrc, h⟩ := h
      split at h
      · rw [ih h k (Nat.lt_succ_of_lt hk)]
        exact List.getElem?_set_ne (Nat.ne_of_gt hk)
      · simp at h

theorem fill_loop_get (st : Stack) :
    ∀ {is : List Nat} {acc : Stack} {j : Nat} {out : Stack}, fill_loop st acc j is = some out →
      ∀ (d i : Nat), is[d]? = some i →
        ∃ src, st[i]? = some src ∧ out[j + d]? = some (cast_u16 src) := by
  intro is
  induction is with
  | nil => intro acc j out _ d i hd; simp at hd
  | cons i0 rest ih =>
      intro acc j out h d i hd
      simp only [fill_loop, Option.bind_eq_bind] at h
      rw [Option.bind_eq_some] at h
      obtain ⟨src, hsrc, h⟩ := h
      split at h
      case isTrue hj =>
        cases d with
        | zero =>
            simp only [List.getElem?_cons_zero, Option.some.injEq] at hd
            subst hd
            refine ⟨src, hsrc, ?_⟩
            rw [Nat.add_zero, fill_loop_lower st h j (Nat.lt_succ_self j)]
            rw [List.getElem?_set_self (by simpa using hj)]
        | succ d =>
            simp only [List.getElem?_cons_succ] at hd
            obtain ⟨s, hs, ho⟩ := ih h d i hd
            refine ⟨s, hs, ?_⟩
            have harith : j + (d + 1) = j + 1 + d := by omega
            rw [harith]
            exact ho
      case isFalse => simp at h

theorem fill_loop_isSome (st : Stack) :
    ∀ (is : List Nat) (acc : Stack) (j : Nat),
      (∀ i ∈ is, i < st.length) → j + is.length ≤ acc.length →
      ∃ out, fill_loop st acc j is = some out := by
  intro is
  induction is with
  | nil => exact fun _ _ _ _ => ⟨_, rfl⟩
  | cons i0 rest ih =>
      intro acc j h hlen
      have hi0 : i0 < st.length := h i0 (by simp)
      have hj : j < acc.length := by
        simp only [List.length_cons] at hlen
        omega
      obtain ⟨out, hout⟩ := ih (acc.set j (cast_u16 (st[i0]))) (j + 1)
        (fun i hi => h i (by simp [hi]))
        (by simp only [List.length_set]; simp only [List.length_cons] at hlen; omega)
      exact ⟨out, by
        simp only [fill_loop, Option.bind_eq_bind, List.getElem?_eq_getElem hi0]
        simp [hj, hout]⟩

theorem stack_sort_spec (stack : Stack) (codes canon : List String)
    (hperm : codes.Perm canon) (hnd : canon.Nodup) (h256 : codes.length ≤ 256)
    (hlen : stack.length = codes.length) (hu16 : U16Stack stack) :
    ∃ out, stack_sort stack codes canon = some out ∧ out.length = stack.length ∧
      ∀ (i j : Nat) (t : String), canon[i]? = some t → codes[j]? = some t → out[i]? = stack[j]? := by
  have hndc : codes.Nodup := hperm.nodup_iff.mpr hnd
  have hle : codes.length = canon.length := hperm.length_eq
  have htake : canon.take codes.length = canon := by
    rw [hle]
    exact List.take_length canon
  obtain ⟨cs, hcs⟩ := scan_codes_isSome codes canon
    (fun t ht => hperm.mem_iff.mpr ht)
  have hbuild : build_c_arr codes canon = some cs := by
    unfold build_c_arr
    rw [if_pos (by omega), htake, hcs]
  have hcslen : cs.length = canon.length := scan_codes_length codes hcs
  have hcsmem : ∀ x ∈ cs, x < stack.length := by
    intro x hx
    have := scan_codes_lt codes hcs x hx
    omega
  obtain ⟨out, hout⟩ := fill_loop_isSome stack cs
    (zeros3 stack.length ((stack.headD []).length)
      (((stack.headD []).headD []).length)) 0 hcsmem
    (by simp [zeros3]; omega)
  have hss : stack_sort stack codes canon = some out := by
    unfold stack_sort
    rw [hbuild]
    exact hout
  have holen : out.length = stack.length := by
    have := fill_loop_length stack hout
    simpa [zeros3] using this
  refine ⟨out, hss, holen, ?_⟩
  intro i j t hti htj
  obtain ⟨ii, hfind, hcsi⟩ := scan_codes_get codes hcs i t hti
  obtain ⟨hii, hpi, -⟩ := List.findIdx?_eq_some_iff_getElem.mp hfind
  have hii256 : ii % 256 = ii := Nat.mod_eq_of_lt (lt_of_lt_of_le hii h256)
  obtain ⟨hj, hjt⟩ := List.getElem?_eq_some_iff.mp htj
  have hiit : codes[ii] = t := by simpa using hpi
  have hjii : j = ii := (hndc.getElem_inj_iff).mp (by rw [hjt, hiit])
  rw [hjii]
  rw [hii256] at hcsi
  obtain ⟨src, hsrc, houti⟩ := fill_loop_get stack hout i ii hcsi
  have hout_i : out[i]? = some (cast_u16 src) := by simpa using houti
  have hsrcmem : src ∈ stack := List.getElem?_mem hsrc
  rw [hout_i, cast_u16_eq_self (fun r hr v hv => hu16 src hsrcmem r hr v hv), hsrc]

theorem cast_u16_bound (b : Band) : ∀ r0 ∈ cast_u16 b, ∀ v ∈ r0, v < 65536 := by
  intro r0 hr0 v hv
  simp only [cast_u16, List.mem_map] at hr0
  obtain ⟨r1, -, hr1⟩ := hr0
  subst hr1
  simp only [List.mem_map] at hv
  obtain ⟨v1, -, hv1⟩ := hv
  omega

theorem cast_u16_shape {b : Band} {rr cc : Nat}
    (h : b.length = rr ∧ ∀ row0 ∈ b, row0.length = cc) :
    (cast_u16 b).length = rr ∧ ∀ row0 ∈ cast_u16 b, row0.length = cc := by
  obtain ⟨hl, hr⟩ := h
  constructor
  · simp [cast_u16, hl]
  · intro row0 hrow0
    simp only [cast_u16, List.mem_map] at hrow0
    obtain ⟨r1, hr1m, hr1⟩ := hrow0
    subst hr1
    simp [hr r1 hr1m]

theorem zeros3_u16 (band row column : Nat) :
    ∀ b ∈ zeros3 band row column, ∀ r0 ∈ b, ∀ v ∈ r0, v < 65536 := by
  intro b hb r0 hr0 v hv
  rw [List.eq_of_mem_replicate hb] at hr0
  rw [List.eq_of_mem_replicate hr0] at hv
  rw [List.eq_of_mem_replicate hv]
  omega

theorem zeros3_rect {arr : Stack} {rr cc : Nat} (hrect : Rect3 arr rr cc) :
    ∀ b ∈ zeros3 arr.length ((arr.headD []).length)
      (((arr.headD []).headD []).length),
      b.length = rr ∧ ∀ row0 ∈ b, row0.length = cc := by
  intro b hb
  rcases arr with _ | ⟨b0, rest⟩
  · simp [zeros3] at hb
  · rw [List.eq_of_mem_replicate hb]
    obtain ⟨hb0l, hb0r⟩ := hrect b0 (by simp)
    constructor
    · simpa [zeros_band] using hb0l
    · intro row0 hrow0
      rw [List.eq_of_mem_replicate hrow0]
      simp only [List.length_replicate]
      rcases b0 with _ | ⟨r0, rrest⟩
      · simp [zeros_band] at hrow0
      · simpa using hb0r r0 (by simp)

theorem fill_loop_heap_other (a_src a_dst : Nat) :
    ∀ {is : List Nat} {h : Heap} {j : Nat} {h2 : Heap},
      fill_loop_heap a_src a_dst h j is = some h2 →
      ∀ b : Nat, b ≠ a_dst → h2[b]? = h[b]? := by
  intro is
  induction is with
  | nil =>
      intro h j h2 hrun b hb
      simp only [fill_loop_heap, Option.some.injEq] at hrun
      rw [← hrun]
  | cons i0 rest ih =>
      intro h j h2 hrun b hb
      simp only [fill_loop_heap, Option.bind_eq_bind] at hrun
      rw [Option.bind_eq_some] at hrun
      obtain ⟨src_arr, hsa, hrun⟩ := hrun
      rw [Option.bind_eq_some] at hrun
      obtain ⟨src, hs, hrun⟩ := hrun
      rw [Option.bind_eq_some] at hrun
      obtain ⟨dst, hd, hrun⟩ := hrun
      split at hrun
      · rw [ih hrun b hb]
        exact List.getElem?_set_ne (Ne.symm hb)
      · simp at hrun

theorem fill_loop_heap_dst (a_src a_dst : Nat) (hne : a_src ≠ a_dst)
    (arr : Stack) (P : Band → Prop) (harrP : ∀ b ∈ arr, P (cast_u16 b)) :
    ∀ {is : List Nat} {h : Heap} {j : Nat} {h2 : Heap} {d : Stack},
      fill_loop_heap a_src a_dst h j is = some h2 →
      h[a_src]? = some arr → h[a_dst]? = some d →
      (∀ b ∈ d, P b) →
      ∃ d2, h2[a_dst]? = some d2 ∧ d2.length = d.length ∧ ∀ b ∈ d2, P b := by
  intro is
  induction is with
  | nil =>
      intro h j h2 d hrun hsrc hdst hP
      simp only [fill_loop_heap, Option.some.injEq] at hrun
      subst hrun
      exact ⟨d, hdst, rfl, hP⟩
  | cons i0 rest ih =>
      intro h j h2 d hrun hsrc hdst hP
      simp only [fill_loop_heap, Option.bind_eq_bind] at hrun
      rw [Option.bind_eq_some] at hrun
      obtain ⟨src_arr, hsa, hrun⟩ := hrun
      rw [Option.bind_eq_some] at hrun
      obtain ⟨src, hs, hrun⟩ := hrun
      rw [Option.bind_eq_some] at hrun
      obtain ⟨dst, hd, hrun⟩ := hrun
      split at hrun
      case isTrue hj =>
        rw [hsrc] at hsa
        injection hsa with hsa
        subst hsa
        rw [hdst] at hd
        injection hd with hd
        subst hd
        have hlt : a_dst < h.length := (List.getElem?_eq_some_iff.mp hdst).1
        have hsrc2 : (h.set a_dst (d.set j (cast_u16 src)))[a_src]? = some arr := by
          rw [List.getElem?_set_ne (Ne.symm hne)]
          exact hsrc
        have hdst2 : (h.set a_dst (d.set j (cast_u16 src)))[a_dst]? =
            some (d.set j (cast_u16 src)) :=
          List.getElem?_set_self hlt
        have hP2 : ∀ b ∈ d.set j (cast_u16 src), P b := by
          intro b hb
          rcases List.mem_or_eq_of_mem_set hb with hb | rfl
          · exact hP b hb
          · exact harrP src (List.getElem?_mem hs)
        obtain ⟨d2, hd2, hlen2, hP3⟩ := ih hrun hsrc2 hdst2 hP2
        exact ⟨d2, hd2, by simpa using hlen2, hP3⟩
      case isFalse => simp at hrun

/-! ### Claims about `stack_sort` -/

/-- C1: for every input stack whose code list is a permutation of the
canonical list in use (one of the three tier lists, hence with all codes
distinct and present) and which has one `uint16` band sample per code,
`stack_sort` succeeds and arranges the band samples in exactly canonical
order: output slot `i` holds the input sample whose code equals the `i`-th
canonical code, the slot the linear scan (restarted from the front of the
code list for each target) locates. -/
theorem C1_stack_sort_canonical_order (stack : Stack) (codes canon : List String)
    (hperm : codes.Perm canon)
    (hcanon : canon = sorted_list_10m ∨ canon = sorted_list_20m ∨
      canon = sorted_list_60m)
    (hlen : stack.length = codes.length) (hu16 : U16Stack stack) :
    ∃ out, stack_sort stack codes canon = some out ∧ out.length = stack.length ∧
      ∀ (i j : Nat) (t : String), canon[i]? = some t → codes[j]? = some t →
        out[i]? = stack[j]? := by
  have hnd : canon.Nodup := by
    rcases hcanon with rfl | rfl | rfl <;> decide
  have h256 : codes.length ≤ 256 := by
    rcases hcanon with rfl | rfl | rfl <;> rw [hperm.length_eq] <;> decide
  exact stack_sort_spec stack codes canon hperm hnd h256 hlen hu16

/-- Witness for C1: a shuffled 4-band 10m stack. -/
theorem C1_stack_sort_canonical_order_witness :
    (["03", "02", "08", "04"] : List String).Perm sorted_list_10m ∧
    ([[[10]], [[20]], [[30]], [[40]]] : Stack).length =
      (["03", "02", "08", "04"] : List String).length ∧
    U16Stack [[[10]], [[20]], [[30]], [[40]]] ∧
    (∃ out, stack_sort [[[10]], [[20]], [[30]], [[40]]] ["03", "02", "08", "04"]
        sorted_list_10m = some out ∧
      out.length = ([[[10]], [[20]], [[30]], [[40]]] : Stack).length ∧
      ∀ (i j : Nat) (t : String), sorted_list_10m[i]? = some t →
        (["03", "02", "08", "04"] : List String)[j]? = some t →
        out[i]? = ([[[10]], [[20]], [[30]], [[40]]] : Stack)[j]?) :=
  ⟨by decide, by decide, by unfold U16Stack; decide,
    C1_stack_sort_canonical_order [[[10]], [[20]], [[30]], [[40]]]
      ["03", "02", "08", "04"] sorted_list_10m (by decide) (Or.inl rfl)
      (by decide) (by unfold U16Stack; decide)⟩

/-- C4: sorting an already canonically ordered `uint16` stack is a no-op:
when the code list equals the canonical list in use (codes distinct and
matching) and the stack has one band per code, `stack_sort` returns an array
equal to its input. -/
theorem C4_stack_sort_noop_on_sorted (stack : Stack) (codes : List String)
    (hcanon : codes = sorted_list_10m ∨ codes = sorted_list_20m ∨
      codes = sorted_list_60m)
    (hlen : stack.length = codes.length) (hu16 : U16Stack stack) :
    stack_sort stack codes codes = some stack := by
  have hnd : codes.Nodup := by
    rcases hcanon with rfl | rfl | rfl <;> decide
  have h256 : codes.length ≤ 256 := by
    rcases hcanon with rfl | rfl | rfl <;> decide
  obtain ⟨out, hss, holen, hspec⟩ :=
    stack_sort_spec stack codes codes (List.Perm.refl codes) hnd h256 hlen hu16
  have hout : out = stack := by
    apply List.ext_getElem?
    intro n
    by_cases hn : n < codes.length
    · have ht : codes[n]? = some (codes[n]) := List.getElem?_eq_getElem hn
      exact hspec n n (codes[n]) ht ht
    · have h1 : out.length ≤ n := by omega
      have h2 : stack.length ≤ n := by omega
      rw [List.getElem?_eq_none h1, List.getElem?_eq_none h2]
  rw [hss, hout]

/-- Witness for C4: a 60m stack already in canonical order. -/
theorem C4_stack_sort_noop_on_sorted_witness :
    ([[[10]], [[20]]] : Stack).length = sorted_list_60m.length ∧
    U16Stack [[[10]], [[20]]] ∧
    stack_sort [[[10]], [[20]]] sorted_list_60m sorted_list_60m =
      some [[[10]], [[20]]] :=
  ⟨by decide, by unfold U16Stack; decide,
    C4_stack_sort_noop_on_sorted [[[10]], [[20]]] sorted_list_60m
      (Or.inr (Or.inr rfl)) (by decide) (by unfold U16Stack; decide)⟩

/-- C10: `stack_sort` never modifies the array objects it is given.  On the
heap embedding, every call that returns leaves every pre-existing array
(including the input stack at `a`) unchanged, and its result is a freshly
allocated array — its address is new and distinct from the input's — whose
band count equals the input's, whose pixel values all fit `uint16`, and whose
bands keep the input's rectangular shape.  (`code_list` and `sorted_list`
are pure values here: the source only reads them by index.) -/
theorem C10_stack_sort_frame (h : Heap) (a : Nat) (codes canon : List String)
    (h2 : Heap) (r : Nat)
    (hrun : stack_sort_heap h a codes canon = some (h2, r)) :
    r = h.length ∧ (∀ b < h.length, h2[b]? = h[b]?) ∧ r ≠ a ∧
    ∃ arr out, h[a]? = some arr ∧ h2[r]? = some out ∧ out.length = arr.length ∧
      U16Stack out ∧ (∀ rr cc, Rect3 arr rr cc → Rect3 out rr cc) := by
  simp only [stack_sort_heap, Option.bind_eq_bind] at hrun
  rw [Option.bind_eq_some] at hrun
  obtain ⟨arr, harr, hrun⟩ := hrun
  have halt : a < h.length := (List.getElem?_eq_some_iff.mp harr).1
  cases hb : build_c_arr codes canon with
  | none => rw [hb] at hrun; simp at hrun
  | some c_arr =>
      rw [hb] at hrun
      rw [Option.bind_eq_some] at hrun
      obtain ⟨hfin, hfill, hpure⟩ := hrun
      injection hpure with hpure
      injection hpure with hp1 hp2
      subst hp1
      subst hp2
      have hane : a ≠ h.length := Nat.ne_of_lt halt
      have hdst0 : (h ++ [zeros3 arr.length ((arr.headD []).length)
          (((arr.headD []).headD []).length)])[h.length]? =
          some (zeros3 arr.length ((arr.headD []).length)
            (((arr.headD []).headD []).length)) :=
        List.getElem?_concat_length _ _
      have hsrc0 : (h ++ [zeros3 arr.length ((arr.headD []).length)
          (((arr.headD []).headD []).length)])[a]? = some arr := by
        rw [List.getElem?_append_left halt]
        exact harr
      refine ⟨rfl, ?_, Ne.symm hane, ?_⟩
      · intro b hblt
        rw [fill_loop_heap_other a h.length hfill b (Nat.ne_of_lt hblt)]
        rw [List.getElem?_append_left hblt]
      · obtain ⟨out, hout, hlen, hu⟩ := fill_loop_heap_dst a h.length hane arr
          (fun b => ∀ r0 ∈ b, ∀ v ∈ r0, v < 65536)
          (fun b _ => cast_u16_bound b)
          hfill hsrc0 hdst0
          (zeros3_u16 arr.length ((arr.headD []).length)
            (((arr.headD []).headD []).length))
        refine ⟨arr, out, harr, hout, by simpa [zeros3] using hlen, hu, ?_⟩
        intro rr cc hrect
        obtain ⟨out2, hout2, -, hrect2⟩ := fill_loop_heap_dst a h.length hane arr
          (fun b => b.length = rr ∧ ∀ row0 ∈ b, row0.length = cc)
          (fun b hb => cast_u16_shape (hrect b hb))
          hfill hsrc0 hdst0
          (zeros3_rect hrect)
        rw [hout] at hout2
        injection hout2 with hout2
        rw [← hout2] at hrect2
        exact hrect2

/-- Witness for C10: a two-band stack sorted on a one-object heap. -/
theorem C10_stack_sort_frame_witness :
    stack_sort_heap [[[[7]], [[8]]]] 0 ["09", "01"] ["01", "09"] =
      some ([[[[7]], [[8]]], [[[8]], [[7]]]], 1) ∧
    (1 = ([[[[7]], [[8]]]] : Heap).length ∧
      (∀ b < ([[[[7]], [[8]]]] : Heap).length,
        ([[[[7]], [[8]]], [[[8]], [[7]]]] : Heap)[b]? =
          ([[[[7]], [[8]]]] : Heap)[b]?) ∧ 1 ≠ 0 ∧
      ∃ arr out, ([[[[7]], [[8]]]] : Heap)[0]? = some arr ∧
        ([[[[7]], [[8]]], [[[8]], [[7]]]] : Heap)[1]? = some out ∧
        out.length = arr.length ∧ U16Stack out ∧
        (∀ rr cc, Rect3 arr rr cc → Rect3 out rr cc)) :=
  ⟨by decide,
    C10_stack_sort_frame [[[[7]], [[8]]]] 0 ["09", "01"] ["01", "09"]
      [[[[7]], [[8]]], [[[8]], [[7]]]] 1 (by decide)⟩

end Senio
